import Mathlib

/-!
Shallow embedding of the genedesign transcript designer and RBS chooser,
translated from src/genedesign/transcript_designer.py and
src/genedesign/rbs_chooser.py.

DNA and peptide sequences are lists of characters, mirroring Python strings.
Randomness is modelled by an oracle rnd : Nat -> Nat giving the outcomes of
the successive calls to random.choice, together with an explicit draw counter
threaded in source order: each call consumes one draw and selects the element
at index rnd n modulo the list length.  The external collaborators that the
spec lists as outside the core (the four sequence checkers, the hairpin
counter, the translator and the edit distance routine) are passed as record
parameters whose signatures follow section 6 of the spec.
-/

/-- Codon usage table built by TranscriptDesigner.initiate: each amino acid
maps to its synonymous codons repeated by integer weight, exactly as written
in the source.  A symbol absent from the table maps to the empty list, the
shallow image of a Python KeyError on lookup. -/
def aminoAcidToCodonWeighted (aa : Char) : List (List Char) :=
  match aa with
  | 'A' => List.replicate 40 "GCG".toList ++ List.replicate 35 "GCC".toList ++
           List.replicate 20 "GCA".toList ++ List.replicate 5 "GCT".toList
  | 'C' => List.replicate 55 "TGC".toList ++ List.replicate 45 "TGT".toList
  | 'D' => List.replicate 60 "GAT".toList ++ List.replicate 40 "GAC".toList
  | 'E' => List.replicate 70 "GAA".toList ++ List.replicate 30 "GAG".toList
  | 'F' => List.replicate 80 "TTC".toList ++ List.replicate 20 "TTT".toList
  | 'G' => List.replicate 35 "GGT".toList ++ List.replicate 30 "GGC".toList ++
           List.replicate 25 "GGA".toList ++ List.replicate 10 "GGG".toList
  | 'H' => List.replicate 65 "CAC".toList ++ List.replicate 35 "CAT".toList
  | 'I' => List.replicate 50 "ATC".toList ++ List.replicate 40 "ATT".toList ++
           List.replicate 10 "ATA".toList
  | 'K' => List.replicate 75 "AAA".toList ++ List.replicate 25 "AAG".toList
  | 'L' => List.replicate 49 "CTG".toList ++ List.replicate 13 "TTA".toList ++
           List.replicate 13 "TTG".toList ++ List.replicate 11 "CTT".toList ++
           List.replicate 10 "CTC".toList ++ List.replicate 4 "CTA".toList
  | 'M' => List.replicate 100 "ATG".toList
  | 'N' => List.replicate 60 "AAC".toList ++ List.replicate 40 "AAT".toList
  | 'P' => List.replicate 50 "CCG".toList ++ List.replicate 20 "CCC".toList ++
           List.replicate 20 "CCA".toList ++ List.replicate 10 "CCT".toList
  | 'Q' => List.replicate 70 "CAG".toList ++ List.replicate 30 "CAA".toList
  | 'R' => List.replicate 40 "CGT".toList ++ List.replicate 30 "CGC".toList ++
           List.replicate 15 "CGA".toList ++ List.replicate 10 "CGG".toList ++
           List.replicate 5 "AGA".toList
  | 'S' => List.replicate 30 "TCT".toList ++ List.replicate 25 "TCC".toList ++
           List.replicate 20 "TCA".toList ++ List.replicate 15 "TCG".toList ++
           List.replicate 5 "AGT".toList ++ List.replicate 5 "AGC".toList
  | 'T' => List.replicate 50 "ACC".toList ++ List.replicate 25 "ACT".toList ++
           List.replicate 15 "ACA".toList ++ List.replicate 10 "ACG".toList
  | 'V' => List.replicate 45 "GTT".toList ++ List.replicate 25 "GTC".toList ++
           List.replicate 20 "GTA".toList ++ List.replicate 10 "GTG".toList
  | 'W' => List.replicate 100 "TGG".toList
  | 'Y' => List.replicate 60 "TAC".toList ++ List.replicate 40 "TAT".toList
  | _ => []

/-- random.choice over a weighted codon list, driven by one oracle draw. -/
def randomChoice (k : Nat) (l : List (List Char)) : List Char :=
  l.getD (k % l.length) []

/-- TranscriptDesigner.generate_codon: randomly selects a codon for the given
amino acid based on usage frequency; the call at counter n consumes draw n. -/
def generate_codon (rnd : Nat → Nat) (n : Nat) (aa : Char) : List Char :=
  randomChoice (rnd n) (aminoAcidToCodonWeighted aa)

/-- One generate_codon call per character, consuming consecutive draws
starting at counter n, as a Python comprehension over the characters does. -/
def genCodons (rnd : Nat → Nat) (n : Nat) : List Char → List (List Char)
  | [] => []
  | c :: rest => generate_codon rnd n c :: genCodons rnd (n + 1) rest

/-- The join of the codons drawn for the characters of w, mirroring the
expression that joins generate_codon over a window in monte_carlo_optimize. -/
def joinCodons (rnd : Nat → Nat) (n : Nat) (w : List Char) : List Char :=
  (genCodons rnd n w).flatten

/-- Interfaces of the four sequence checkers consumed by evaluate_candidate,
with the tuple shapes of section 6 of the spec: the codon checker returns
pass, diversity, rare codon count and CAI; the other three return a pass flag
and an optional offending subsequence. -/
structure CheckerSuite where
  codonChecker : List (List Char) → Bool × ℚ × ℤ × ℚ
  forbiddenChecker : List Char → Bool × Option (List Char)
  hairpinChecker : List Char → Bool × Option (List Char)
  promoterChecker : List Char → Bool × Option (List Char)

/-- Python slicing comprehension splitting a sequence into 3 character chunks:
the list of candidate slices i to i plus 3 for i in range(0, len, 3). -/
def chunk3 (l : List Char) : List (List Char) :=
  ((List.range l.length).filter (fun i => decide (i % 3 = 0))).map
    (fun i => (l.drop i).take 3)

/-- TranscriptDesigner.evaluate_candidate: accumulates the penalty from the
four checker outcomes in source order. -/
def evaluate_candidate (C : CheckerSuite) (candidate : List Char) : ℚ :=
  let penalty : ℚ := 0
  let codons := chunk3 candidate
  let res := C.codonChecker codons
  let codon_pass := res.1
  let rare_count := res.2.2.1
  let cai := res.2.2.2
  let penalty := if codon_pass then penalty else penalty + 50
  let penalty := penalty + (1 - cai)
  let penalty := penalty + (rare_count : ℚ)
  let penalty := if (C.forbiddenChecker candidate).1 then penalty else penalty + 100
  let penalty := if (C.hairpinChecker candidate).1 then penalty else penalty + 50
  let penalty := if (C.promoterChecker candidate).1 then penalty else penalty + 100
  penalty

/-- The candidate list built by monte_carlo_optimize: num_candidates
realizations of the window, each redrawing one codon per window character, so
candidate j consumes the draws from n plus j times the window length. -/
def monte_carlo_candidates (rnd : Nat → Nat) (n : Nat) (window : List Char)
    (num_candidates : Nat) : List (List Char) :=
  (List.range num_candidates).map
    (fun j => joinCodons rnd (n + j * window.length) window)

/-- Python min over a list of scores; min of the empty list is unreachable in
the source because num_candidates is positive. -/
def listMin : List ℚ → ℚ
  | [] => 0
  | [x] => x
  | x :: y :: rest => min x (listMin (y :: rest))

/-- Python list.index: the index of the first element equal to v. -/
def pyIndex (l : List ℚ) (v : ℚ) : Nat :=
  l.findIdx (fun x => decide (x = v))

/-- TranscriptDesigner.monte_carlo_optimize: generate the candidates, score
them all with evaluate_candidate (the thread pool map preserves order), and
return the candidate at the first index achieving the minimum score. -/
def monte_carlo_optimize (C : CheckerSuite) (rnd : Nat → Nat) (n : Nat)
    (window : List Char) (num_candidates : Nat) : List Char :=
  let candidates := monte_carlo_candidates rnd n window num_candidates
  let scores := candidates.map (evaluate_candidate C)
  let best_index := pyIndex scores (listMin scores)
  candidates.getD best_index []

/-- Python slice s[-3:]: the last three characters, or all of them when the
sequence is shorter. -/
def lastN (l : List Char) (k : Nat) : List Char :=
  l.drop (l.length - k)

/-- The start indices visited by the main loop of sliding_window_optimization,
range(0, len(peptide_codons) - 3 + 1, 3), with the stop bound computed in
integer arithmetic as Python does. -/
def loopStarts (L : Nat) : List Nat :=
  (List.range L).filter (fun i => decide (i % 3 = 0 ∧ (i : ℤ) < (L : ℤ) - 3 + 1))

/-- The main loop of sliding_window_optimization: at each start index the
window is the last three committed characters followed by the join of the next
three provisional codons; the best Monte Carlo realization is computed and its
slice 3 to 6 appended.  The draw counter advances by num_candidates draws per
window character. -/
def slidingLoop (C : CheckerSuite) (rnd : Nat → Nat)
    (peptide_codons : List (List Char)) (num_candidates : Nat) :
    List Nat → List Char → Nat → List Char × Nat
  | [], acc, n => (acc, n)
  | i :: rest, acc, n =>
    let window := lastN acc 3 ++ ((peptide_codons.drop i).take 3).flatten
    let best_window := monte_carlo_optimize C rnd n window num_candidates
    slidingLoop C rnd peptide_codons num_candidates rest
      (acc ++ (best_window.drop 3).take 3) (n + num_candidates * window.length)

/-- TranscriptDesigner.sliding_window_optimization: draw one provisional codon
per amino acid, run the main loop, handle the final window built from the last
three provisional codons, and append the stop codon TAA. -/
def sliding_window_optimization (C : CheckerSuite) (rnd : Nat → Nat) (n0 : Nat)
    (peptide : List Char) (num_candidates : Nat) : List Char :=
  let peptide_codons := genCodons rnd n0 peptide
  let preamble : List Char := []
  let p := slidingLoop C rnd peptide_codons num_candidates
    (loopStarts peptide_codons.length) preamble (n0 + peptide.length)
  let final_window :=
    lastN p.1 3 ++ (peptide_codons.drop (peptide_codons.length - 3)).flatten
  let t := p.1 ++
    ((monte_carlo_optimize C rnd p.2 final_window num_candidates).drop 3).take 3
  t ++ "TAA".toList

/-- RBSOption, modelled from the spec: an immutable catalog entry holding a
UTR nucleotide sequence and the first six amino acids of its source gene, with
equality by value (the class itself lives outside src in
genedesign/models/rbs_option.py). -/
structure RBSOption where
  utr : List Char
  first_six_aas : List Char
deriving DecidableEq

/-- External collaborators of RBSChooser.run, with the signatures of section 6
of the spec: the hairpin counter, the translator and the edit distance. -/
structure RBSEnv where
  hairpin_counter : List Char → Nat
  translate : List Char → List Char
  calculate_edit_distance : List Char → List Char → Nat

/-- Step 2 of RBSChooser.run: the catalog options not present in ignores. -/
def candidatesAfterExclusion (catalog ignores : List RBSOption) :
    List RBSOption :=
  catalog.filter (fun o => decide (o ∉ ignores))

/-- Hairpin filter of RBSChooser.run: the non-ignored options whose UTR
concatenated with the cds has hairpin count zero. -/
def viableCandidates (env : RBSEnv) (catalog : List RBSOption) (cds : List Char)
    (ignores : List RBSOption) : List RBSOption :=
  (candidatesAfterExclusion catalog ignores).filter
    (fun o => decide (env.hairpin_counter (o.utr ++ cds) = 0))

/-- The ranking key of step 4 of RBSChooser.run: edit distance between the
first six amino acids of the translated cds and the stored first_six_aas. -/
def queryDist (env : RBSEnv) (cds : List Char) (r : RBSOption) : Nat :=
  env.calculate_edit_distance ((env.translate cds).take 6) r.first_six_aas

/-- Comparison of an edit distance against the running best, which starts at
float infinity in the source; none stands for infinity. -/
def edLtInf (e : Nat) : Option Nat → Bool
  | none => true
  | some b => decide (e < b)

/-- The selection loop of RBSChooser.run: scan the viable candidates in order,
replacing the running best exactly when the edit distance strictly improves,
so the first candidate achieving the minimum wins. -/
def selLoop (d : RBSOption → Nat) :
    List RBSOption → Option RBSOption → Option Nat → Option RBSOption
  | [], best, _ => best
  | r :: rest, best, bestEd =>
    if edLtInf (d r) bestEd then selLoop d rest (some r) (some (d r))
    else selLoop d rest best bestEd

/-- RBSChooser.run: reject a cds whose length is not a multiple of 3 with a
null result, otherwise exclude the ignored options, keep the hairpin free
candidates, and select the viable candidate of minimum edit distance. -/
def RBSChooser.run (env : RBSEnv) (rbs_options : List RBSOption)
    (cds : List Char) (ignores : List RBSOption) : Option RBSOption :=
  if cds.length % 3 ≠ 0 then none
  else
    selLoop (queryDist env cds) (viableCandidates env rbs_options cds ignores)
      none none

/-- The empty catalog that TranscriptDesigner.initiate installs into its
RBSChooser (empty_rbs_options in the source). -/
def empty_rbs_options : List RBSOption := []

/-- Transcript, modelled from the spec: the chosen RBSOption or none, the
source peptide, and the codon list (the class itself lives outside src in
genedesign/models/transcript.py). -/
structure Transcript where
  rbs : Option RBSOption
  peptide : List Char
  codons : List (List Char)

/-- TranscriptDesigner.run: optimize the coding sequence with the default of
ten candidates per window, choose an RBS for it, split it into codons and
package the Transcript. -/
def TranscriptDesigner.run (C : CheckerSuite) (env : RBSEnv) (rnd : Nat → Nat)
    (rbs_options : List RBSOption) (peptide : List Char)
    (ignores : List RBSOption) : Transcript :=
  let optimized_cds := sliding_window_optimization C rnd 0 peptide 10
  let selectedRBS := RBSChooser.run env rbs_options optimized_cds ignores
  let codons := chunk3 optimized_cds
  ⟨selectedRBS, peptide, codons⟩

/-- Checker suite in which every check passes, CAI is 1 and no codon is rare;
used to evaluate the designer on concrete inputs. -/
def trivialCheckers : CheckerSuite where
  codonChecker := fun _ => (true, 0, 0, 1)
  forbiddenChecker := fun _ => (true, none)
  hairpinChecker := fun _ => (true, none)
  promoterChecker := fun _ => (true, none)

/-- Constant zero oracle: every random.choice takes the first list element. -/
def constZero : Nat → Nat := fun _ => 0

/-- Helper used by proofs only: the first element of the list achieving the
minimum value of d, as a recursive function. -/
def firstMin (d : RBSOption → Nat) : List RBSOption → Option RBSOption
  | [] => none
  | r :: rest =>
    (firstMin d rest).elim (some r) (fun b => if d b < d r then some b else some r)

/-- Concrete two residue peptide MY used to evaluate the designer. -/
def pepMY : List Char := "MY".toList

/-- Concrete two character window used to evaluate monte_carlo_optimize. -/
def winAC : List Char := "AC".toList

/-- Concrete coding sequence of length six, a multiple of three. -/
def cds6 : List Char := "ATGGCA".toList

/-- Concrete coding sequence of length four, not a multiple of three. -/
def cds4 : List Char := "ATGG".toList

/-- Concrete candidate sequence for evaluating the penalty formula. -/
def candATG : List Char := "ATG".toList

/-- Concrete RBS catalog entries used as witnesses. -/
def rbsA : RBSOption := ⟨"AGGAGG".toList, "MKHLVA".toList⟩

/-- Second concrete RBS catalog entry used as a witness. -/
def rbsB : RBSOption := ⟨"TTTTTT".toList, "MYPFIR".toList⟩

/-- Concrete collaborator instance whose hairpin counter always reports zero
hairpins, whose translator is the identity and whose edit distance is the
discrete metric. -/
def envZero : RBSEnv where
  hairpin_counter := fun _ => 0
  translate := fun s => s
  calculate_edit_distance := fun a b => if a = b then 0 else 1

/-- Concrete collaborator instance whose hairpin counter always reports one
hairpin. -/
def envOne : RBSEnv where
  hairpin_counter := fun _ => 1
  translate := fun s => s
  calculate_edit_distance := fun a b => if a = b then 0 else 1

/-- Checker suite with concrete failing outcomes: the codon check fails, CAI
is one half, two rare codons, a forbidden hit and a promoter hit. -/
def failCheckers : CheckerSuite where
  codonChecker := fun _ => (false, 0, 2, 1/2)
  forbiddenChecker := fun _ => (false, some [])
  hairpinChecker := fun _ => (true, none)
  promoterChecker := fun _ => (false, none)


theorem mem_table_length3 (c : Char) :
    ∀ s ∈ aminoAcidToCodonWeighted c, s.length = 3 := by
  unfold aminoAcidToCodonWeighted
  split <;> decide

theorem mem_table_chars (c : Char) :
    ∀ s ∈ aminoAcidToCodonWeighted c, ∀ x ∈ s, x ∈ "ACGT".toList := by
  unfold aminoAcidToCodonWeighted
  split <;> decide

theorem nucleotides_valid :
    ∀ x ∈ "ACGT".toList, aminoAcidToCodonWeighted x ≠ [] := by decide

theorem randomChoice_mem (k : Nat) (l : List (List Char)) (hl : l ≠ []) :
    randomChoice k l ∈ l := by
  have hlen : 0 < l.length := List.length_pos.mpr hl
  have hm : k % l.length < l.length := Nat.mod_lt _ hlen
  unfold randomChoice
  rw [List.getD_eq_getElem _ _ hm]
  exact List.getElem_mem hm

theorem generate_codon_mem (rnd : Nat → Nat) (n : Nat) (c : Char)
    (hc : aminoAcidToCodonWeighted c ≠ []) :
    generate_codon rnd n c ∈ aminoAcidToCodonWeighted c :=
  randomChoice_mem _ _ hc

theorem generate_codon_length (rnd : Nat → Nat) (n : Nat) (c : Char)
    (hc : aminoAcidToCodonWeighted c ≠ []) :
    (generate_codon rnd n c).length = 3 :=
  mem_table_length3 c _ (generate_codon_mem rnd n c hc)

theorem joinCodons_nil (rnd : Nat → Nat) (n : Nat) : joinCodons rnd n [] = [] := rfl

theorem joinCodons_cons (rnd : Nat → Nat) (n : Nat) (c : Char) (w : List Char) :
    joinCodons rnd n (c :: w) = generate_codon rnd n c ++ joinCodons rnd (n + 1) w := by
  simp [joinCodons, genCodons]

theorem joinCodons_length (rnd : Nat → Nat) :
    ∀ (w : List Char) (n : Nat), (∀ c ∈ w, aminoAcidToCodonWeighted c ≠ []) →
      (joinCodons rnd n w).length = 3 * w.length
  | [], _, _ => rfl
  | c :: rest, n, hw => by
    rw [joinCodons_cons, List.length_append,
      generate_codon_length rnd n c (hw c (List.mem_cons_self c rest)),
      joinCodons_length rnd rest (n + 1) (fun x hx => hw x (List.mem_cons_of_mem c hx))]
    simp [List.length_cons, Nat.mul_succ, Nat.add_comm]

theorem joinCodons_chars (rnd : Nat → Nat) :
    ∀ (w : List Char) (n : Nat), (∀ c ∈ w, aminoAcidToCodonWeighted c ≠ []) →
      ∀ x ∈ joinCodons rnd n w, x ∈ "ACGT".toList
  | [], _, _, x, hx => absurd hx (List.not_mem_nil x)
  | c :: rest, n, hw, x, hx => by
    rw [joinCodons_cons] at hx
    rcases List.mem_append.mp hx with h | h
    · exact mem_table_chars c _ (generate_codon_mem rnd n c
        (hw c (List.mem_cons_self c rest))) x h
    · exact joinCodons_chars rnd rest (n + 1)
        (fun y hy => hw y (List.mem_cons_of_mem c hy)) x h

theorem listMin_mem : ∀ (l : List ℚ), l ≠ [] → listMin l ∈ l
  | [], h => absurd rfl h
  | [x], _ => by simp [listMin]
  | x :: y :: rest, _ => by
    have ih := listMin_mem (y :: rest) (by simp)
    simp only [listMin]
    rcases min_cases x (listMin (y :: rest)) with ⟨h, _⟩ | ⟨h, _⟩ <;> rw [h]
    · exact List.mem_cons_self x (y :: rest)
    · exact List.mem_cons_of_mem x ih

theorem listMin_le : ∀ (l : List ℚ), ∀ x ∈ l, listMin l ≤ x
  | [], x, hx => absurd hx (List.not_mem_nil x)
  | [a], x, hx => by
    rcases List.mem_cons.mp hx with rfl | h
    · simp [listMin]
    · exact absurd h (List.not_mem_nil x)
  | a :: b :: rest, x, hx => by
    simp only [listMin]
    rcases List.mem_cons.mp hx with rfl | h
    · exact min_le_left _ _
    · exact le_trans (min_le_right _ _) (listMin_le (b :: rest) x h)

theorem pyIndex_lt : ∀ (l : List ℚ) (v : ℚ), v ∈ l → pyIndex l v < l.length
  | [], v, hv => absurd hv (List.not_mem_nil v)
  | x :: rest, v, hv => by
    unfold pyIndex
    rw [List.findIdx_cons]
    by_cases hx : x = v
    · simp [hx]
    · have hv2 : v ∈ rest := by
        rcases List.mem_cons.mp hv with rfl | h
        · exact absurd rfl hx
        · exact h
      have := pyIndex_lt rest v hv2
      unfold pyIndex at this
      rw [decide_eq_false hx, cond_false, List.length_cons]
      omega

theorem pyIndex_getD : ∀ (l : List ℚ) (v : ℚ), v ∈ l → l.getD (pyIndex l v) 0 = v
  | [], v, hv => absurd hv (List.not_mem_nil v)
  | x :: rest, v, hv => by
    unfold pyIndex
    rw [List.findIdx_cons]
    by_cases hx : x = v
    · simp [hx]
    · have hv2 : v ∈ rest := by
        rcases List.mem_cons.mp hv with rfl | h
        · exact absurd rfl hx
        · exact h
      have := pyIndex_getD rest v hv2
      unfold pyIndex at this
      simpa [hx] using this

theorem pyIndex_earlier : ∀ (l : List ℚ) (v : ℚ) (j : Nat), j < pyIndex l v →
    l.getD j 0 ≠ v
  | [], v, j, hj => by
    unfold pyIndex at hj
    rw [List.findIdx_nil] at hj
    exact absurd hj (by omega)
  | x :: rest, v, j, hj => by
    unfold pyIndex at hj
    rw [List.findIdx_cons] at hj
    by_cases hx : x = v
    · rw [decide_eq_true hx, cond_true] at hj
      exact absurd hj (by omega)
    · rw [decide_eq_false hx, cond_false] at hj
      cases j with
      | zero => simpa using hx
      | succ j2 =>
        have := pyIndex_earlier rest v j2 (by unfold pyIndex; omega)
        simpa using this

theorem monte_carlo_candidates_length (rnd : Nat → Nat) (n : Nat)
    (w : List Char) (k : Nat) : (monte_carlo_candidates rnd n w k).length = k := by
  simp [monte_carlo_candidates]

theorem monte_carlo_candidates_getD (rnd : Nat → Nat) (n : Nat) (w : List Char)
    (k : Nat) (j : Nat) (hj : j < k) :
    (monte_carlo_candidates rnd n w k).getD j [] =
      joinCodons rnd (n + j * w.length) w := by
  unfold monte_carlo_candidates
  rw [List.getD_eq_getElem _ _ (by simpa using hj)]
  simp

theorem getD_map_eval (C : CheckerSuite) (l : List (List Char)) (j : Nat)
    (hj : j < l.length) :
    (l.map (evaluate_candidate C)).getD j 0 = evaluate_candidate C (l.getD j []) := by
  rw [List.getD_eq_getElem _ _ (by simpa using hj), List.getD_eq_getElem _ _ hj]
  simp

theorem monte_carlo_selects (C : CheckerSuite) (rnd : Nat → Nat) (n : Nat)
    (w : List Char) (k : Nat) (hk : 0 < k) :
    ∃ i, i < k ∧
      monte_carlo_optimize C rnd n w k = joinCodons rnd (n + i * w.length) w ∧
      (∀ j, j < k →
        evaluate_candidate C (joinCodons rnd (n + i * w.length) w) ≤
          evaluate_candidate C (joinCodons rnd (n + j * w.length) w)) ∧
      (∀ j, j < i →
        evaluate_candidate C (joinCodons rnd (n + i * w.length) w) <
          evaluate_candidate C (joinCodons rnd (n + j * w.length) w)) := by
  have hlen := monte_carlo_candidates_length rnd n w k
  set cands := monte_carlo_candidates rnd n w k with hcands
  set scores := cands.map (evaluate_candidate C) with hscores
  have hslen : scores.length = k := by rw [hscores, List.length_map, hlen]
  have hsne : scores ≠ [] := by
    intro h
    rw [h] at hslen
    simp at hslen
    omega
  have hmem : listMin scores ∈ scores := listMin_mem scores hsne
  have hi : pyIndex scores (listMin scores) < k := by
    have := pyIndex_lt scores (listMin scores) hmem
    omega
  refine ⟨pyIndex scores (listMin scores), hi, ?_, ?_, ?_⟩
  · show cands.getD (pyIndex scores (listMin scores)) [] = _
    exact monte_carlo_candidates_getD rnd n w k _ hi
  · intro j hj
    have h1 : evaluate_candidate C (joinCodons rnd
        (n + pyIndex scores (listMin scores) * w.length) w) = listMin scores := by
      rw [← monte_carlo_candidates_getD rnd n w k _ hi, ← hcands,
        ← getD_map_eval C cands _ (by omega), ← hscores]
      exact pyIndex_getD scores (listMin scores) hmem
    have h2 : evaluate_candidate C (joinCodons rnd (n + j * w.length) w) ∈ scores := by
      rw [← monte_carlo_candidates_getD rnd n w k _ hj, ← hcands,
        ← getD_map_eval C cands _ (by omega), ← hscores]
      have : pyIndex scores (listMin scores) < scores.length ∨ True := Or.inr trivial
      rw [List.getD_eq_getElem _ _ (by omega : j < scores.length)]
      exact List.getElem_mem _
    rw [h1]
    exact listMin_le scores _ h2
  · intro j hj
    have h1 : evaluate_candidate C (joinCodons rnd
        (n + pyIndex scores (listMin scores) * w.length) w) = listMin scores := by
      rw [← monte_carlo_candidates_getD rnd n w k _ hi, ← hcands,
        ← getD_map_eval C cands _ (by omega), ← hscores]
      exact pyIndex_getD scores (listMin scores) hmem
    have hjk : j < k := by omega
    have h2 : scores.getD j 0 ≠ listMin scores := pyIndex_earlier scores _ j hj
    have h3 : scores.getD j 0 =
        evaluate_candidate C (joinCodons rnd (n + j * w.length) w) := by
      rw [hscores, getD_map_eval C cands _ (by omega), hcands,
        monte_carlo_candidates_getD rnd n w k _ hjk]
    have h4 : scores.getD j 0 ∈ scores := by
      rw [List.getD_eq_getElem _ _ (by omega : j < scores.length)]
      exact List.getElem_mem _
    have h5 := listMin_le scores _ h4
    rw [h1, ← h3]
    rcases lt_or_eq_of_le h5 with h | h
    · exact h
    · exact absurd h.symm h2

theorem monte_carlo_length (C : CheckerSuite) (rnd : Nat → Nat) (n : Nat)
    (w : List Char) (k : Nat) (hk : 0 < k)
    (hw : ∀ c ∈ w, aminoAcidToCodonWeighted c ≠ []) :
    (monte_carlo_optimize C rnd n w k).length = 3 * w.length := by
  obtain ⟨i, _, heq, _, _⟩ := monte_carlo_selects C rnd n w k hk
  rw [heq]
  exact joinCodons_length rnd w _ hw
theorem firstMin_eq_none (d : RBSOption → Nat) :
    ∀ (l : List RBSOption), firstMin d l = none → l = []
  | [], _ => rfl
  | x :: rest, h => by
    simp only [firstMin] at h
    cases hm : firstMin d rest with
    | none =>
      simp only [hm, Option.elim_none] at h
      exact absurd h (by simp)
    | some m =>
      simp only [hm, Option.elim_some] at h
      by_cases hlt : d m < d x
      · rw [if_pos hlt] at h; exact absurd h (by simp)
      · rw [if_neg hlt] at h; exact absurd h (by simp)

theorem firstMin_mem (d : RBSOption → Nat) :
    ∀ (l : List RBSOption) (r : RBSOption), firstMin d l = some r → r ∈ l
  | [], r, h => by simp [firstMin] at h
  | x :: rest, r, h => by
    simp only [firstMin] at h
    cases hm : firstMin d rest with
    | none =>
      simp only [hm, Option.elim_none] at h
      exact (Option.some_inj.mp h) ▸ List.mem_cons_self x rest
    | some m =>
      simp only [hm, Option.elim_some] at h
      by_cases hlt : d m < d x
      · rw [if_pos hlt] at h
        exact List.mem_cons_of_mem x
          ((Option.some_inj.mp h) ▸ firstMin_mem d rest m hm)
      · rw [if_neg hlt] at h
        exact (Option.some_inj.mp h) ▸ List.mem_cons_self x rest

theorem firstMin_le (d : RBSOption → Nat) :
    ∀ (l : List RBSOption) (r : RBSOption), firstMin d l = some r →
      ∀ o ∈ l, d r ≤ d o
  | [], r, _, o, ho => absurd ho (List.not_mem_nil o)
  | x :: rest, r, h, o, ho => by
    simp only [firstMin] at h
    cases hm : firstMin d rest with
    | none =>
      simp only [hm, Option.elim_none] at h
      have hrest : rest = [] := firstMin_eq_none d rest hm
      subst hrest
      rcases List.mem_cons.mp ho with rfl | h2
      · rw [← Option.some_inj.mp h]
      · exact absurd h2 (List.not_mem_nil o)
    | some m =>
      simp only [hm, Option.elim_some] at h
      by_cases hlt : d m < d x
      · rw [if_pos hlt] at h
        have hr : m = r := Option.some_inj.mp h
        subst hr
        rcases List.mem_cons.mp ho with rfl | h2
        · exact Nat.le_of_lt hlt
        · exact firstMin_le d rest m hm o h2
      · rw [if_neg hlt] at h
        have hr : x = r := Option.some_inj.mp h
        subst hr
        rcases List.mem_cons.mp ho with rfl | h2
        · exact Nat.le_refl _
        · exact Nat.le_trans (Nat.le_of_not_lt hlt) (firstMin_le d rest m hm o h2)

theorem firstMin_first (d : RBSOption → Nat) :
    ∀ (l : List RBSOption) (r : RBSOption), firstMin d l = some r →
      ∃ l1 l2, l = l1 ++ r :: l2 ∧ ∀ o ∈ l1, d r < d o
  | [], r, h => by simp [firstMin] at h
  | x :: rest, r, h => by
    simp only [firstMin] at h
    cases hm : firstMin d rest with
    | none =>
      simp only [hm, Option.elim_none] at h
      have hr : x = r := Option.some_inj.mp h
      subst hr
      exact ⟨[], rest, rfl, by simp⟩
    | some m =>
      simp only [hm, Option.elim_some] at h
      by_cases hlt : d m < d x
      · rw [if_pos hlt] at h
        have hr : m = r := Option.some_inj.mp h
        subst hr
        obtain ⟨l1, l2, heq, hall⟩ := firstMin_first d rest m hm
        refine ⟨x :: l1, l2, by rw [heq, List.cons_append], ?_⟩
        intro o ho
        rcases List.mem_cons.mp ho with rfl | h2
        · exact hlt
        · exact hall o h2
      · rw [if_neg hlt] at h
        have hr : x = r := Option.some_inj.mp h
        subst hr
        exact ⟨[], rest, rfl, by simp⟩

theorem selLoop_from_some (d : RBSOption → Nat) :
    ∀ (l : List RBSOption) (b : RBSOption),
      selLoop d l (some b) (some (d b)) =
        (firstMin d l).elim (some b) (fun m => if d m < d b then some m else some b)
  | [], b => by simp [selLoop, firstMin]
  | x :: rest, b => by
    simp only [selLoop, edLtInf]
    by_cases hx : d x < d b
    · rw [if_pos (by simpa using hx), selLoop_from_some d rest x]
      cases hm : firstMin d rest with
      | none => simp [firstMin, hm, hx]
      | some m =>
        by_cases hmx : d m < d x
        · simp [firstMin, hm, hmx, Nat.lt_trans hmx hx]
        · simp [firstMin, hm, hmx, hx]
    · rw [if_neg (by simpa using hx), selLoop_from_some d rest b]
      cases hm : firstMin d rest with
      | none => simp [firstMin, hm, hx]
      | some m =>
        by_cases hmx : d m < d x
        · simp [firstMin, hm, hmx]
        · have hmb : ¬ d m < d b := fun hcon =>
            absurd hcon (Nat.not_lt.mpr
              (Nat.le_trans (Nat.le_of_not_lt hx) (Nat.le_of_not_lt hmx)))
          simp [firstMin, hm, hmx, hx, hmb]

theorem selLoop_eq_firstMin (d : RBSOption → Nat) (l : List RBSOption) :
    selLoop d l none none = firstMin d l := by
  cases l with
  | nil => rfl
  | cons x rest =>
    have h1 : selLoop d (x :: rest) none none =
        selLoop d rest (some x) (some (d x)) := by
      simp [selLoop, edLtInf]
    rw [h1, selLoop_from_some d rest x]
    simp only [firstMin]

theorem genCodons_length (rnd : Nat → Nat) :
    ∀ (w : List Char) (n : Nat), (genCodons rnd n w).length = w.length
  | [], _ => rfl
  | _ :: rest, n => by
    simp only [genCodons, List.length_cons, genCodons_length rnd rest (n + 1)]

theorem joinCodons_slice (rnd : Nat → Nat) (m : Nat) :
    ∀ (w : List Char), (∀ c ∈ w, aminoAcidToCodonWeighted c ≠ []) →
      2 ≤ w.length →
      ((joinCodons rnd m w).drop 3).take 3 = generate_codon rnd (m + 1) (w.getD 1 'A')
  | [], _, h2 => by simp at h2
  | [_], _, h2 => by simp at h2
  | c0 :: c1 :: rest, hw, _ => by
    rw [joinCodons_cons, joinCodons_cons]
    have h0 : (generate_codon rnd m c0).length = 3 :=
      generate_codon_length rnd m c0 (hw c0 (by simp))
    have h1 : (generate_codon rnd (m + 1) c1).length = 3 :=
      generate_codon_length rnd (m + 1) c1 (hw c1 (by simp))
    rw [List.drop_left' h0, List.take_left' h1]
    rfl

theorem viable_mem_iff (env : RBSEnv) (catalog : List RBSOption)
    (cds : List Char) (ignores : List RBSOption) (o : RBSOption) :
    o ∈ viableCandidates env catalog cds ignores ↔
      o ∈ catalog ∧ o ∉ ignores ∧ env.hairpin_counter (o.utr ++ cds) = 0 := by
  unfold viableCandidates candidatesAfterExclusion
  simp only [List.mem_filter, decide_eq_true_eq]
  tauto

theorem rbs_run_eq_firstMin (env : RBSEnv) (catalog : List RBSOption)
    (cds : List Char) (ignores : List RBSOption) (hmod : cds.length % 3 = 0) :
    RBSChooser.run env catalog cds ignores =
      firstMin (queryDist env cds) (viableCandidates env catalog cds ignores) := by
  unfold RBSChooser.run
  rw [if_neg (by omega)]
  exact selLoop_eq_firstMin _ _

theorem rbs_run_some_not_ignored (env : RBSEnv) (catalog : List RBSOption)
    (cds : List Char) (ignores : List RBSOption) (r : RBSOption)
    (h : RBSChooser.run env catalog cds ignores = some r) : r ∉ ignores := by
  by_cases hmod : cds.length % 3 ≠ 0
  · unfold RBSChooser.run at h
    rw [if_pos hmod] at h
    exact absurd h (by simp)
  · rw [rbs_run_eq_firstMin env catalog cds ignores (by omega)] at h
    exact ((viable_mem_iff env catalog cds ignores r).mp
      (firstMin_mem _ _ _ h)).2.1

theorem rbs_run_empty_catalog (env : RBSEnv) (cds : List Char)
    (ignores : List RBSOption) :
    RBSChooser.run env [] cds ignores = none := by
  unfold RBSChooser.run
  split
  · rfl
  · have hv : viableCandidates env [] cds ignores = [] := rfl
    rw [hv]
    rfl

/-- C3: for every peptide and every ignores set, the Transcript returned by
TranscriptDesigner.run with the catalog installed by initiate (the empty set
of RBS options) has a null rbs field, because RBSChooser.run over an empty
catalog always returns none, whatever the checkers, the collaborators and the
random draws are. -/
theorem c3_run_empty_catalog_rbs_is_none (C : CheckerSuite) (env : RBSEnv)
    (rnd : Nat → Nat) (peptide : List Char) (ignores : List RBSOption) :
    (TranscriptDesigner.run C env rnd empty_rbs_options peptide ignores).rbs =
      none := by
  unfold TranscriptDesigner.run
  exact rbs_run_empty_catalog env _ ignores

/-- C4: whenever RBSChooser.run returns an option r for a cds whose length is
a multiple of three, r is a catalog option not in ignores whose UTR appended
to the cds counts zero hairpins, its edit distance to the first six amino
acids of the translated cds is minimal among all non ignored catalog options
with zero hairpins, and r precedes every strictly better impossible tie: all
viable candidates before r in iteration order have strictly larger edit
distance, so the first seen minimum wins. -/
theorem c4_rbs_run_selected_is_min_edit_viable (env : RBSEnv)
    (catalog : List RBSOption) (cds : List Char) (ignores : List RBSOption)
    (r : RBSOption) (hmod : cds.length % 3 = 0)
    (h : RBSChooser.run env catalog cds ignores = some r) :
    r ∈ catalog ∧ r ∉ ignores ∧ env.hairpin_counter (r.utr ++ cds) = 0 ∧
    (∀ o ∈ catalog, o ∉ ignores → env.hairpin_counter (o.utr ++ cds) = 0 →
      queryDist env cds r ≤ queryDist env cds o) ∧
    ∃ l1 l2, viableCandidates env catalog cds ignores = l1 ++ r :: l2 ∧
      ∀ o ∈ l1, queryDist env cds r < queryDist env cds o := by
  rw [rbs_run_eq_firstMin env catalog cds ignores hmod] at h
  have hv := (viable_mem_iff env catalog cds ignores r).mp (firstMin_mem _ _ _ h)
  refine ⟨hv.1, hv.2.1, hv.2.2, ?_, firstMin_first _ _ _ h⟩
  intro o ho hoi hh
  exact firstMin_le _ _ _ h o
    ((viable_mem_iff env catalog cds ignores o).mpr ⟨ho, hoi, hh⟩)

theorem c4_witness :
    cds6.length % 3 = 0 ∧
    RBSChooser.run envZero [rbsA] cds6 [] = some rbsA ∧
    (rbsA ∈ [rbsA] ∧ rbsA ∉ ([] : List RBSOption) ∧
      envZero.hairpin_counter (rbsA.utr ++ cds6) = 0 ∧
      (∀ o ∈ [rbsA], o ∉ ([] : List RBSOption) →
        envZero.hairpin_counter (o.utr ++ cds6) = 0 →
        queryDist envZero cds6 rbsA ≤ queryDist envZero cds6 o) ∧
      ∃ l1 l2, viableCandidates envZero [rbsA] cds6 [] = l1 ++ rbsA :: l2 ∧
        ∀ o ∈ l1, queryDist envZero cds6 rbsA < queryDist envZero cds6 o) :=
  ⟨by decide, by decide,
    c4_rbs_run_selected_is_min_edit_viable envZero [rbsA] cds6 [] rbsA
      (by decide) (by decide)⟩

/-- C5: for a cds whose length is a multiple of three, if every catalog
option outside ignores has a nonzero hairpin count on its UTR appended to the
cds, in particular when the catalog minus ignores is empty, then
RBSChooser.run returns none. -/
theorem c5_rbs_run_none_when_no_viable (env : RBSEnv)
    (catalog : List RBSOption) (cds : List Char) (ignores : List RBSOption)
    (hmod : cds.length % 3 = 0)
    (hall : ∀ o ∈ catalog, o ∉ ignores →
      env.hairpin_counter (o.utr ++ cds) ≠ 0) :
    RBSChooser.run env catalog cds ignores = none := by
  rw [rbs_run_eq_firstMin env catalog cds ignores hmod]
  have hv : viableCandidates env catalog cds ignores = [] := by
    rw [List.eq_nil_iff_forall_not_mem]
    intro o ho
    have hm := (viable_mem_iff env catalog cds ignores o).mp ho
    exact hall o hm.1 hm.2.1 hm.2.2
  rw [hv]
  rfl

theorem c5_witness :
    cds6.length % 3 = 0 ∧
    (∀ o ∈ [rbsA], o ∉ ([] : List RBSOption) →
      envOne.hairpin_counter (o.utr ++ cds6) ≠ 0) ∧
    RBSChooser.run envOne [rbsA] cds6 [] = none :=
  ⟨by decide, by decide,
    c5_rbs_run_none_when_no_viable envOne [rbsA] cds6 [] (by decide) (by decide)⟩

/-- C6: for every cds whose length is not a multiple of three,
RBSChooser.run returns none whatever the catalog, the ignores set and the
collaborators are, so no exclusion, hairpin, translation or edit distance
step can influence the result. -/
theorem c6_rbs_run_none_on_bad_length (env : RBSEnv)
    (catalog : List RBSOption) (cds : List Char) (ignores : List RBSOption)
    (hmod : cds.length % 3 ≠ 0) :
    RBSChooser.run env catalog cds ignores = none := by
  unfold RBSChooser.run
  rw [if_pos hmod]

theorem c6_witness :
    cds4.length % 3 ≠ 0 ∧
    RBSChooser.run envZero [rbsA] cds4 [rbsB] = none :=
  ⟨by decide, c6_rbs_run_none_on_bad_length envZero [rbsA] cds4 [rbsB]
    (by decide)⟩

/-- C7: RBSChooser.run never returns an option that is a member of ignores,
and in particular adding a previously selected option to ignores and running
again never returns that same option. -/
theorem c7_rbs_run_never_returns_ignored (env : RBSEnv)
    (catalog : List RBSOption) (cds : List Char) (ignores : List RBSOption)
    (r : RBSOption) (h : RBSChooser.run env catalog cds ignores = some r) :
    r ∉ ignores ∧ RBSChooser.run env catalog cds (r :: ignores) ≠ some r :=
  ⟨rbs_run_some_not_ignored env catalog cds ignores r h,
    fun h2 => rbs_run_some_not_ignored env catalog cds (r :: ignores) r h2
      (List.mem_cons_self r ignores)⟩

theorem c7_witness :
    RBSChooser.run envZero [rbsA, rbsB] cds6 [rbsB] = some rbsA ∧
    (rbsA ∉ [rbsB] ∧
      RBSChooser.run envZero [rbsA, rbsB] cds6 (rbsA :: [rbsB]) ≠ some rbsA) :=
  ⟨by decide,
    c7_rbs_run_never_returns_ignored envZero [rbsA, rbsB] cds6 [rbsB] rbsA
      (by decide)⟩

/-- C1: the claim asserts that for every valid peptide of length L at least
one, run yields a coding sequence of 3 times L plus one nucleotides ending in
TAA.  Evaluated at the two residue peptide MY from the testable property of
the spec, the code commits a single codon before the stop codon, so the
coding sequence has 6 nucleotides and not 9, for every checker suite and
every random draw sequence: the length part of the claim fails on the code. -/
theorem c1_cds_length_for_MY (C : CheckerSuite) (rnd : Nat → Nat) :
    (sliding_window_optimization C rnd 0 pepMY 10).length = 6 ∧
    (sliding_window_optimization C rnd 0 pepMY 10).length ≠
      3 * (pepMY.length + 1) := by
  have hkey : sliding_window_optimization C rnd 0 pepMY 10 =
      ((monte_carlo_optimize C rnd 2 (joinCodons rnd 0 pepMY) 10).drop 3).take 3
        ++ "TAA".toList := rfl
  have hvalid : ∀ c ∈ joinCodons rnd 0 pepMY, aminoAcidToCodonWeighted c ≠ [] := by
    intro x hx
    exact nucleotides_valid x (joinCodons_chars rnd pepMY 0 (by decide) x hx)
  have hjlen : (joinCodons rnd 0 pepMY).length = 6 := by
    rw [joinCodons_length rnd pepMY 0 (by decide)]
    rfl
  have hmc : (monte_carlo_optimize C rnd 2 (joinCodons rnd 0 pepMY) 10).length = 18 := by
    rw [monte_carlo_length C rnd 2 _ 10 (by norm_num) hvalid, hjlen]
  have hlen6 : (sliding_window_optimization C rnd 0 pepMY 10).length = 6 := by
    rw [hkey, List.length_append, List.length_take, List.length_drop, hmc]
    decide
  exact ⟨hlen6, by rw [hlen6]; decide⟩

/-- C2: the claim asserts that the sliding loop advances one codon at a time,
stride one, so that for a peptide of six codons the window start indices are
0, 1, 2, 3.  The loop of the source advances three codons at a time, its own
comment notwithstanding: for six provisional codons the visited start indices
are exactly 0 and 3, so the windows do not overlap and interior codons are
not evaluated in multiple windows. -/
theorem c2_window_starts_for_six_codons :
    loopStarts 6 = [0, 3] ∧ loopStarts 6 ≠ [0, 1, 2, 3] := by decide

/-- C8: evaluate_candidate returns exactly the sum of a 50 penalty when the
codon usage check fails, one minus CAI, the rare codon count, a 100 penalty
when the forbidden sequence check fails, a 50 penalty when the hairpin check
fails and a 100 penalty when the internal promoter check fails; and whenever
CAI lies in the half open interval from zero to one and the rare codon count
is non negative, the result is non negative. -/
theorem c8_evaluate_candidate_formula (C : CheckerSuite) (cand : List Char) :
    evaluate_candidate C cand =
      (if (C.codonChecker (chunk3 cand)).1 then 0 else 50) +
      (1 - (C.codonChecker (chunk3 cand)).2.2.2) +
      ((C.codonChecker (chunk3 cand)).2.2.1 : ℚ) +
      (if (C.forbiddenChecker cand).1 then 0 else 100) +
      (if (C.hairpinChecker cand).1 then 0 else 50) +
      (if (C.promoterChecker cand).1 then 0 else 100) ∧
    (0 < (C.codonChecker (chunk3 cand)).2.2.2 →
      (C.codonChecker (chunk3 cand)).2.2.2 ≤ 1 →
      0 ≤ (C.codonChecker (chunk3 cand)).2.2.1 →
      0 ≤ evaluate_candidate C cand) := by
  have hform : evaluate_candidate C cand =
      (if (C.codonChecker (chunk3 cand)).1 then 0 else 50) +
      (1 - (C.codonChecker (chunk3 cand)).2.2.2) +
      ((C.codonChecker (chunk3 cand)).2.2.1 : ℚ) +
      (if (C.forbiddenChecker cand).1 then 0 else 100) +
      (if (C.hairpinChecker cand).1 then 0 else 50) +
      (if (C.promoterChecker cand).1 then 0 else 100) := by
    unfold evaluate_candidate
    split_ifs <;> simp_all
  refine ⟨hform, ?_⟩
  intro h1 h2 h3
  have hrc : (0 : ℚ) ≤ ((C.codonChecker (chunk3 cand)).2.2.1 : ℚ) := by
    exact_mod_cast h3
  have hcai : (0 : ℚ) ≤ 1 - (C.codonChecker (chunk3 cand)).2.2.2 := by linarith
  rw [hform]
  split_ifs <;> linarith

theorem c8_witness :
    0 < (failCheckers.codonChecker (chunk3 candATG)).2.2.2 ∧
    (failCheckers.codonChecker (chunk3 candATG)).2.2.2 ≤ 1 ∧
    0 ≤ (failCheckers.codonChecker (chunk3 candATG)).2.2.1 ∧
    0 ≤ evaluate_candidate failCheckers candATG :=
  ⟨by norm_num [failCheckers], by norm_num [failCheckers],
    by norm_num [failCheckers],
    (c8_evaluate_candidate_formula failCheckers candATG).2
      (by norm_num [failCheckers]) (by norm_num [failCheckers])
      (by norm_num [failCheckers])⟩

/-- C9: monte_carlo_optimize builds exactly num_candidates candidate
realizations of the window, the candidate at position j being an independent
redraw of every codon of the window from the weighted table, and returns the
candidate whose penalty score is minimal, where every candidate generated
before the returned one has a strictly larger score: ties are broken in favor
of the first generated candidate. -/
theorem c9_monte_carlo_min_first_seen (C : CheckerSuite) (rnd : Nat → Nat)
    (n : Nat) (window : List Char) (k : Nat) (hk : 0 < k) :
    (monte_carlo_candidates rnd n window k).length = k ∧
    (∀ j, j < k → (monte_carlo_candidates rnd n window k).getD j [] =
      joinCodons rnd (n + j * window.length) window) ∧
    ∃ i, i < k ∧
      monte_carlo_optimize C rnd n window k =
        (monte_carlo_candidates rnd n window k).getD i [] ∧
      (∀ j, j < k →
        evaluate_candidate C ((monte_carlo_candidates rnd n window k).getD i []) ≤
          evaluate_candidate C ((monte_carlo_candidates rnd n window k).getD j [])) ∧
      (∀ j, j < i →
        evaluate_candidate C ((monte_carlo_candidates rnd n window k).getD i []) <
          evaluate_candidate C ((monte_carlo_candidates rnd n window k).getD j [])) := by
  obtain ⟨i, hik, heq, hmin, hfirst⟩ := monte_carlo_selects C rnd n window k hk
  refine ⟨monte_carlo_candidates_length rnd n window k,
    fun j hj => monte_carlo_candidates_getD rnd n window k j hj,
    i, hik, ?_, ?_, ?_⟩
  · rw [heq, monte_carlo_candidates_getD rnd n window k i hik]
  · intro j hj
    rw [monte_carlo_candidates_getD rnd n window k i hik,
      monte_carlo_candidates_getD rnd n window k j hj]
    exact hmin j hj
  · intro j hj
    rw [monte_carlo_candidates_getD rnd n window k i hik,
      monte_carlo_candidates_getD rnd n window k j (by omega)]
    exact hfirst j hj

theorem c9_witness :
    0 < 2 ∧
    ((monte_carlo_candidates constZero 0 pepMY 2).length = 2 ∧
      (∀ j, j < 2 → (monte_carlo_candidates constZero 0 pepMY 2).getD j [] =
        joinCodons constZero (0 + j * pepMY.length) pepMY) ∧
      ∃ i, i < 2 ∧
        monte_carlo_optimize trivialCheckers constZero 0 pepMY 2 =
          (monte_carlo_candidates constZero 0 pepMY 2).getD i [] ∧
        (∀ j, j < 2 →
          evaluate_candidate trivialCheckers
              ((monte_carlo_candidates constZero 0 pepMY 2).getD i []) ≤
            evaluate_candidate trivialCheckers
              ((monte_carlo_candidates constZero 0 pepMY 2).getD j [])) ∧
        (∀ j, j < i →
          evaluate_candidate trivialCheckers
              ((monte_carlo_candidates constZero 0 pepMY 2).getD i []) <
            evaluate_candidate trivialCheckers
              ((monte_carlo_candidates constZero 0 pepMY 2).getD j []))) :=
  ⟨by decide,
    c9_monte_carlo_min_first_seen trivialCheckers constZero 0 pepMY 2 (by decide)⟩

/-- C10: for a window string whose characters are all keys of the codon
table, a set that includes the nucleotide letters A, C, G and T,
monte_carlo_optimize returns a sequence of exactly 3 times the window length
nucleotides, because each character of the DNA window is looked up as an
amino acid symbol and replaced by a three nucleotide codon; consequently the
slice from position 3 to 6 that the sliding loop commits is the codon drawn
for the second character of the window, not the middle codon of a nine
nucleotide window. -/
theorem c10_monte_carlo_length_and_slice (C : CheckerSuite) (rnd : Nat → Nat)
    (n : Nat) (w : List Char) (k : Nat) (hk : 0 < k)
    (hw : ∀ c ∈ w, aminoAcidToCodonWeighted c ≠ []) :
    (∀ c ∈ "ACGT".toList, aminoAcidToCodonWeighted c ≠ []) ∧
    (monte_carlo_optimize C rnd n w k).length = 3 * w.length ∧
    ∃ i, i < k ∧
      monte_carlo_optimize C rnd n w k = joinCodons rnd (n + i * w.length) w ∧
      (2 ≤ w.length →
        ((monte_carlo_optimize C rnd n w k).drop 3).take 3 =
          generate_codon rnd (n + i * w.length + 1) (w.getD 1 'A')) := by
  obtain ⟨i, hik, heq, _, _⟩ := monte_carlo_selects C rnd n w k hk
  refine ⟨nucleotides_valid, ?_, i, hik, heq, ?_⟩
  · rw [heq]
    exact joinCodons_length rnd w _ hw
  · intro h2
    rw [heq]
    exact joinCodons_slice rnd (n + i * w.length) w hw h2

theorem c10_witness :
    0 < 1 ∧ (∀ c ∈ winAC, aminoAcidToCodonWeighted c ≠ []) ∧
    ((∀ c ∈ "ACGT".toList, aminoAcidToCodonWeighted c ≠ []) ∧
      (monte_carlo_optimize trivialCheckers constZero 0 winAC 1).length =
        3 * winAC.length ∧
      ∃ i, i < 1 ∧
        monte_carlo_optimize trivialCheckers constZero 0 winAC 1 =
          joinCodons constZero (0 + i * winAC.length) winAC ∧
        (2 ≤ winAC.length →
          ((monte_carlo_optimize trivialCheckers constZero 0 winAC 1).drop 3).take 3 =
            generate_codon constZero (0 + i * winAC.length + 1) (winAC.getD 1 'A'))) :=
  ⟨by decide, by decide,
    c10_monte_carlo_length_and_slice trivialCheckers constZero 0 winAC 1
      (by decide) (by decide)⟩
